import Mathlib

/-!
Shallow embedding of the list CRUD core of `src/app.rs` (leptos-stores).

The reactive store holds `Data { items: Vec<Item> }`; the four event
handlers in the `Items` component mutate `items`.  We model `Vec<Item>`
as `List Item`, `u128` ids as `Nat`, and a Rust `unwrap` panic as the
`none` branch of an `Option` result.
-/

/-- `Item` from `src/app.rs` (lines 229–238): a 128-bit id and a mutable
text value. -/
structure Item where
  id : Nat
  value : String
deriving DecidableEq, Repr

/-- The Add button handler (`src/app.rs` lines 161–169): pushes a new
`Item` with a freshly generated uuid and the fixed value `"Value"`.
The uuid draw is modelled as the explicit argument `freshId`. -/
def addItem (freshId : Nat) (items : List Item) : List Item :=
  items ++ [{ id := freshId, value := "Value" }]

/-- `on_delete` (`src/app.rs` lines 150–155): finds the position of the
first item whose id equals the given id and removes it; the `unwrap`
panics when no item matches, modelled as `none`. -/
def on_delete (id : Nat) (items : List Item) : Option (List Item) :=
  match items.findIdx? (fun item => item.id == id) with
  | some index => some (items.eraseIdx index)
  | none => none

/-- Helper mirroring `items.get_mut(n).unwrap(); item.value = v;`:
overwrite the `value` field of the element at index `n`. -/
def setValueAt (items : List Item) (n : Nat) (v : String) : List Item :=
  match items, n with
  | [], _ => []
  | item :: rest, 0 => { item with value := v } :: rest
  | item :: rest, Nat.succ m => item :: setValueAt rest m v

/-- The "Mutate n-1" button handler (`src/app.rs` lines 175–183): if the
list has at least two elements, set the value at index `len - 2` to
`"Mutated"`; otherwise do nothing. -/
def mutateSecondToLast (items : List Item) : List Item :=
  let len := items.length
  if len ≥ 2 then setValueAt items (len - 2) "Mutated" else items

/-- The "Delete 0" button handler (`src/app.rs` lines 188–195): remove
the element at index 0 when the list is non-empty, otherwise no-op. -/
def deleteFirst (items : List Item) : List Item :=
  if items.length > 0 then items.eraseIdx 0 else items

/-- Opaque server error type standing for `ServerFnError`. -/
inductive ServerFnErr where
  | err : ServerFnErr
deriving DecidableEq, Repr

/-- `get_items` (`src/app.rs` lines 251–262): returns `Ok` of a fixed
two-item list, with the two uuid draws modelled as arguments. -/
def get_items (id1 id2 : Nat) : Except ServerFnErr (List Item) :=
  Except.ok [{ id := id1, value := "great" }, { id := id2, value := "amasing" }]

/-- The seeding of `items_resource` (`src/app.rs` lines 117–118):
`get_items().await.unwrap()`, where an `Err` would panic (`none`). -/
def items_resource_seed (id1 id2 : Nat) : Option (List Item) :=
  match get_items id1 id2 with
  | Except.ok l => some l
  | Except.error _ => none

/-- One user-triggered mutation of the store; the uuid drawn by Add is
made explicit. -/
inductive Op where
  | add (freshId : Nat)
  | deleteById (id : Nat)
  | deleteFirst
  | mutateSecondToLast
deriving DecidableEq, Repr

/-- Apply a single operation; `none` models a panic inside the handler. -/
def applyOp : Op → List Item → Option (List Item)
  | Op.add f, items => some (addItem f items)
  | Op.deleteById i, items => on_delete i items
  | Op.deleteFirst, items => some (deleteFirst items)
  | Op.mutateSecondToLast, items => some (mutateSecondToLast items)

/-- Run a sequence of operations, propagating panics. -/
def runOps : List Op → List Item → Option (List Item)
  | [], items => some items
  | op :: rest, items =>
    match applyOp op items with
    | some items2 => runOps rest items2
    | none => none

/-- Every `Add` in the sequence draws an id not already present in the
collection at the moment it runs. -/
def freshRun : List Op → List Item → Bool
  | [], _ => true
  | op :: rest, items =>
    let ok := match op with
      | Op.add f => !(items.map Item.id).contains f
      | _ => true
    ok && (match applyOp op items with
      | some items2 => freshRun rest items2
      | none => true)

/-- The ids of the items currently in the collection. -/
def ids (items : List Item) : List Nat :=
  items.map Item.id

/-! ### Helper lemmas -/

lemma findIdx?_cons_zero (p : Item → Bool) (x : Item) (xs : List Item) :
    (x :: xs).findIdx? p = if p x then some 0 else (xs.findIdx? p).map (· + 1) := by
  rw [List.findIdx?_cons, List.findIdx?_succ]

lemma setValueAt_length (items : List Item) (n : Nat) (v : String) :
    (setValueAt items n v).length = items.length := by
  induction items generalizing n with
  | nil => rfl
  | cons x rest ih =>
    cases n with
    | zero => simp [setValueAt]
    | succ m => simp [setValueAt, ih]

lemma setValueAt_get?_ne (items : List Item) (n i : Nat) (v : String)
    (h : i ≠ n) : (setValueAt items n v).get? i = items.get? i := by
  induction items generalizing n i with
  | nil => rfl
  | cons x rest ih =>
    cases n with
    | zero =>
      cases i with
      | zero => exact absurd rfl h
      | succ j => simp [setValueAt]
    | succ m =>
      cases i with
      | zero => simp [setValueAt]
      | succ j =>
        simp only [setValueAt, List.get?_cons_succ]
        exact ih m j (fun hc => h (by simp [hc]))

lemma setValueAt_get?_eq (items : List Item) (n : Nat) (v : String)
    (x : Item) (h : items.get? n = some x) :
    (setValueAt items n v).get? n = some { id := x.id, value := v } := by
  induction items generalizing n with
  | nil => simp at h
  | cons y rest ih =>
    cases n with
    | zero =>
      simp only [List.get?_cons_zero, Option.some.injEq] at h
      subst h
      rfl
    | succ m =>
      simp only [List.get?_cons_succ] at h
      simpa [setValueAt] using ih m h

lemma ids_setValueAt (items : List Item) (n : Nat) (v : String) :
    ids (setValueAt items n v) = ids items := by
  induction items generalizing n with
  | nil => rfl
  | cons x rest ih =>
    cases n with
    | zero => simp [setValueAt, ids]
    | succ m => simpa [setValueAt, ids] using ih m

/-- Characterisation of `on_delete` when the id is present: the list
splits around the first item carrying the id, and exactly that item is
removed. -/
lemma on_delete_split (id : Nat) (items : List Item) (h : id ∈ ids items) :
    ∃ l1 x l2, items = l1 ++ x :: l2 ∧ x.id = id ∧ (∀ y ∈ l1, y.id ≠ id) ∧
      on_delete id items = some (l1 ++ l2) := by
  induction items with
  | nil => simp [ids] at h
  | cons x rest ih =>
    by_cases hx : x.id = id
    · refine ⟨[], x, rest, rfl, hx, by simp, ?_⟩
      simp [on_delete, findIdx?_cons_zero, hx, List.eraseIdx]
    · have hmem : id ∈ ids rest := by
        simp only [ids, List.map_cons, List.mem_cons] at h
        rcases h with h | h
        · exact absurd h.symm hx
        · exact h
      obtain ⟨l1, y, l2, hsplit, hyid, hfront, hdel⟩ := ih hmem
      refine ⟨x :: l1, y, l2, by simp [hsplit], hyid, ?_, ?_⟩
      · intro z hz
        rcases List.mem_cons.mp hz with hz | hz
        · subst hz; exact hx
        · exact hfront z hz
      · simp only [on_delete] at hdel ⊢
        rw [findIdx?_cons_zero]
        have hxfalse : (x.id == id) = false := by simp [hx]
        rw [hxfalse]
        simp only [Bool.false_eq_true, if_false]
        cases hfind : rest.findIdx? (fun item => item.id == id) with
        | none => rw [hfind] at hdel; simp at hdel
        | some n =>
          rw [hfind] at hdel
          simp only [Option.some.injEq] at hdel
          simp [List.eraseIdx, hdel]

/-- `on_delete` never grows the list: a successful result is a sublist of
the input. -/
lemma on_delete_sublist (id : Nat) (items r : List Item)
    (h : on_delete id items = some r) : r.Sublist items := by
  simp only [on_delete] at h
  cases hfind : items.findIdx? (fun item => item.id == id) with
  | none => rw [hfind] at h; simp at h
  | some n =>
    rw [hfind] at h
    simp only [Option.some.injEq] at h
    subst h
    exact List.eraseIdx_sublist items n

lemma ids_nodup_sublist {r items : List Item} (hsub : r.Sublist items)
    (hu : (ids items).Nodup) : (ids r).Nodup :=
  List.Nodup.sublist (List.Sublist.map Item.id hsub) hu

lemma deleteFirst_sublist (items : List Item) :
    (deleteFirst items).Sublist items := by
  unfold deleteFirst
  by_cases h : items.length > 0
  · simpa [h] using List.eraseIdx_sublist items 0
  · simp [h]

lemma ids_mutateSecondToLast (items : List Item) :
    ids (mutateSecondToLast items) = ids items := by
  unfold mutateSecondToLast
  by_cases h : 2 ≤ items.length
  · simp [h, ids_setValueAt]
  · simp [h]

/-! ### Claim theorems -/

/-- C2: Add increases length by exactly 1, keeps every previously present
item at its position with its contents, puts the new item at the end with
value `"Value"`, and always succeeds (never panics). -/
theorem add_spec (freshId : Nat) (items : List Item) :
    (addItem freshId items).length = items.length + 1 ∧
    (∀ i : Nat, i < items.length → (addItem freshId items).get? i = items.get? i) ∧
    (addItem freshId items).get? items.length = some { id := freshId, value := "Value" } ∧
    applyOp (Op.add freshId) items = some (addItem freshId items) := by
  refine ⟨by simp [addItem], ?_, ?_, rfl⟩
  · intro i hi
    simp [addItem, List.get?_eq_getElem?, List.getElem?_append_left hi]
  · simp [addItem, List.get?_eq_getElem?, List.getElem?_concat_length]

/-- Witness for C2 at a concrete input. -/
theorem add_spec_witness :
    (addItem 5 [⟨1, "a"⟩]).get? 0 = some ⟨1, "a"⟩ ∧
    (addItem 5 [⟨1, "a"⟩]).get? 1 = some ⟨5, "Value"⟩ :=
  ⟨(add_spec 5 [⟨1, "a"⟩]).2.1 0 (by decide), (add_spec 5 [⟨1, "a"⟩]).2.2.1⟩

/-- C4: deleting an id absent from the collection hits the `unwrap` panic
(the error branch), never a silent no-op. -/
theorem deleteById_absent_panics (id : Nat) (items : List Item)
    (h : id ∉ ids items) : on_delete id items = none := by
  have hnone : items.findIdx? (fun item => item.id == id) = none := by
    rw [List.findIdx?_eq_none_iff]
    intro x hx
    simp only [beq_eq_false_iff_ne, ne_eq]
    intro heq
    apply h
    simp only [ids, List.mem_map]
    exact ⟨x, hx, heq⟩
  simp [on_delete, hnone]

/-- Witness for C4 at a concrete input. -/
theorem deleteById_absent_panics_witness :
    on_delete 9 [⟨1, "a"⟩, ⟨2, "b"⟩] = none :=
  deleteById_absent_panics 9 [⟨1, "a"⟩, ⟨2, "b"⟩] (by decide)

/-- C5: DeleteFirst on a non-empty collection removes exactly the element
at position 0 leaving the rest in order and unchanged; on an empty
collection it is a no-op and never an error (it is a total function). -/
theorem deleteFirst_spec (items : List Item) :
    (∀ x rest, items = x :: rest → deleteFirst items = rest) ∧
    (items = [] → deleteFirst items = []) := by
  constructor
  · intro x rest hcons
    subst hcons
    simp [deleteFirst, List.eraseIdx]
  · intro hnil
    subst hnil
    rfl

/-- Witness for C5 at concrete inputs. -/
theorem deleteFirst_spec_witness :
    deleteFirst [⟨1, "a"⟩, ⟨2, "b"⟩] = [⟨2, "b"⟩] ∧ deleteFirst [] = [] :=
  ⟨(deleteFirst_spec [⟨1, "a"⟩, ⟨2, "b"⟩]).1 ⟨1, "a"⟩ [⟨2, "b"⟩] rfl,
   (deleteFirst_spec []).2 rfl⟩

/-- C6: MutateSecondToLast keeps the length, keeps every element other
than the one at index `length - 2` unchanged; when the length is at least
2 it rewrites exactly that element's value to `"Mutated"` keeping its id;
when the length is below 2 it leaves the list entirely unchanged. -/
theorem mutateSecondToLast_spec (items : List Item) :
    (mutateSecondToLast items).length = items.length ∧
    (∀ i : Nat, i ≠ items.length - 2 →
      (mutateSecondToLast items).get? i = items.get? i) ∧
    (2 ≤ items.length → ∀ x, items.get? (items.length - 2) = some x →
      (mutateSecondToLast items).get? (items.length - 2) =
        some { id := x.id, value := "Mutated" }) ∧
    (items.length < 2 → mutateSecondToLast items = items) := by
  by_cases h2 : 2 ≤ items.length
  · refine ⟨?_, ?_, ?_, ?_⟩
    · simp [mutateSecondToLast, h2, setValueAt_length]
    · intro i hi
      simp only [mutateSecondToLast, h2, if_pos]
      exact setValueAt_get?_ne items (items.length - 2) i "Mutated" hi
    · intro _ x hx
      simp only [mutateSecondToLast, h2, if_pos]
      exact setValueAt_get?_eq items (items.length - 2) "Mutated" x hx
    · intro hlt
      exact absurd h2 (by omega)
  · refine ⟨?_, ?_, ?_, ?_⟩ <;> simp [mutateSecondToLast, h2]

/-- Witness for C6 at a concrete input. -/
theorem mutateSecondToLast_spec_witness :
    (mutateSecondToLast [⟨1, "a"⟩, ⟨2, "b"⟩, ⟨3, "c"⟩]).get? 2 = some ⟨3, "c"⟩ ∧
    (mutateSecondToLast [⟨1, "a"⟩, ⟨2, "b"⟩, ⟨3, "c"⟩]).get? 1 = some ⟨2, "Mutated"⟩ ∧
    mutateSecondToLast [⟨1, "a"⟩] = [⟨1, "a"⟩] :=
  ⟨(mutateSecondToLast_spec [⟨1, "a"⟩, ⟨2, "b"⟩, ⟨3, "c"⟩]).2.1 2 (by decide),
   (mutateSecondToLast_spec [⟨1, "a"⟩, ⟨2, "b"⟩, ⟨3, "c"⟩]).2.2.1 (by decide) ⟨2, "b"⟩ (by decide),
   (mutateSecondToLast_spec [⟨1, "a"⟩]).2.2.2 (by decide)⟩

/-- C7: the spec scenario, step by step, starting from
`[{id 1, "great"}, {id 2, "amasing"}]` with the Add drawing id 3. -/
theorem scenario_spec :
    addItem 3 [⟨1, "great"⟩, ⟨2, "amasing"⟩] =
      [⟨1, "great"⟩, ⟨2, "amasing"⟩, ⟨3, "Value"⟩] ∧
    (addItem 3 [⟨1, "great"⟩, ⟨2, "amasing"⟩]).length = 3 ∧
    mutateSecondToLast [⟨1, "great"⟩, ⟨2, "amasing"⟩, ⟨3, "Value"⟩] =
      [⟨1, "great"⟩, ⟨2, "Mutated"⟩, ⟨3, "Value"⟩] ∧
    on_delete 1 [⟨1, "great"⟩, ⟨2, "Mutated"⟩, ⟨3, "Value"⟩] =
      some [⟨2, "Mutated"⟩, ⟨3, "Value"⟩] ∧
    deleteFirst [⟨2, "Mutated"⟩, ⟨3, "Value"⟩] = [⟨3, "Value"⟩] := by
  decide

/-- C8: `get_items` always succeeds with exactly the two sample items,
values `"great"` then `"amasing"`, carrying the two fresh uuid draws as
ids. -/
theorem get_items_spec (id1 id2 : Nat) :
    ∃ l, get_items id1 id2 = Except.ok l ∧ l.length = 2 ∧
      l.map Item.value = ["great", "amasing"] ∧ l.map Item.id = [id1, id2] :=
  ⟨_, rfl, rfl, rfl, rfl⟩

/-- C10: `get_items` never returns the error variant, so the `unwrap`
seeding `items_resource` never takes the error (panic) branch. -/
theorem get_items_never_errors (id1 id2 : Nat) :
    ∃ l, get_items id1 id2 = Except.ok l ∧ items_resource_seed id1 id2 = some l :=
  ⟨_, rfl, rfl⟩

/-- C3: with unique ids and the id present, DeleteById succeeds, removes
exactly that item (the result is the input filtered of the given id, so
relative order and all other items are untouched), and the length drops
by exactly 1. -/
theorem deleteById_present_spec (id : Nat) (items : List Item)
    (hu : (ids items).Nodup) (h : id ∈ ids items) :
    ∃ r, on_delete id items = some r ∧ r.length + 1 = items.length ∧
      r = items.filter (fun x => x.id != id) := by
  obtain ⟨l1, x, l2, hsplit, hxid, hfront, hdel⟩ := on_delete_split id items h
  subst hsplit
  refine ⟨l1 ++ l2, hdel, by simp only [List.length_append, List.length_cons]; omega, ?_⟩
  have hl2 : ∀ y ∈ l2, y.id ≠ id := by
    simp only [ids, List.map_append, List.map_cons, List.nodup_append,
      List.nodup_cons] at hu
    intro y hy hyid
    exact hu.2.1.1 (hxid ▸ hyid ▸ List.mem_map_of_mem Item.id hy)
  rw [List.filter_append, List.filter_cons]
  have hxfalse : (x.id != id) = false := by simp [hxid]
  rw [hxfalse]
  have h1 : l1.filter (fun y => y.id != id) = l1 :=
    List.filter_eq_self.mpr (fun y hy => by simp [hfront y hy])
  have h2 : l2.filter (fun y => y.id != id) = l2 :=
    List.filter_eq_self.mpr (fun y hy => by simp [hl2 y hy])
  simp [h1, h2]

/-- Witness for C3 at a concrete input. -/
theorem deleteById_present_spec_witness :
    ∃ r, on_delete 1 [⟨1, "a"⟩, ⟨2, "b"⟩] = some r ∧
      r.length + 1 = ([⟨1, "a"⟩, ⟨2, "b"⟩] : List Item).length ∧
      r = ([⟨1, "a"⟩, ⟨2, "b"⟩] : List Item).filter (fun x => x.id != 1) :=
  deleteById_present_spec 1 [⟨1, "a"⟩, ⟨2, "b"⟩] (by decide) (by decide)

/-- C9: when more than one item carries the given id, DeleteById removes
only the first occurrence (the one at the lowest index: everything before
it has a different id), the length drops by exactly 1, and the later
duplicates stay in place (the tail after the removed item is returned
verbatim and still contains the id). -/
theorem deleteById_duplicate_spec (id : Nat) (items : List Item)
    (h : 2 ≤ (ids items).count id) :
    ∃ l1 x l2, items = l1 ++ x :: l2 ∧ x.id = id ∧ (∀ y ∈ l1, y.id ≠ id) ∧
      id ∈ ids l2 ∧ on_delete id items = some (l1 ++ l2) ∧
      (l1 ++ l2).length + 1 = items.length := by
  have hmem : id ∈ ids items := List.count_pos_iff.mp (by omega)
  obtain ⟨l1, x, l2, hsplit, hxid, hfront, hdel⟩ := on_delete_split id items hmem
  refine ⟨l1, x, l2, hsplit, hxid, hfront, ?_, hdel, ?_⟩
  · subst hsplit
    have h1 : (ids l1).count id = 0 := by
      rw [List.count_eq_zero]
      simp only [ids, List.mem_map, not_exists]
      intro y
      intro hc
      exact hfront y hc.1 hc.2
    rw [ids, List.map_append, List.map_cons, List.count_append,
      List.count_cons] at h
    have h2 : 0 < (l2.map Item.id).count id := by
      simp only [ids] at h1
      simp [hxid] at h
      omega
    exact List.count_pos_iff.mp h2
  · subst hsplit
    simp only [List.length_append, List.length_cons]
    omega

/-- Witness for C9 at a concrete input with a duplicated id. -/
theorem deleteById_duplicate_spec_witness :
    ∃ l1 x l2, ([⟨5, "a"⟩, ⟨5, "b"⟩] : List Item) = l1 ++ x :: l2 ∧
      x.id = 5 ∧ (∀ y ∈ l1, y.id ≠ 5) ∧ 5 ∈ ids l2 ∧
      on_delete 5 [⟨5, "a"⟩, ⟨5, "b"⟩] = some (l1 ++ l2) ∧
      (l1 ++ l2).length + 1 = ([⟨5, "a"⟩, ⟨5, "b"⟩] : List Item).length :=
  deleteById_duplicate_spec 5 [⟨5, "a"⟩, ⟨5, "b"⟩] (by decide)

/-- C1: running any sequence of Add / DeleteById / DeleteFirst /
MutateSecondToLast operations on a collection whose ids start out
pairwise distinct keeps the ids pairwise distinct, provided every Add
draws an id not already present when it runs. -/
theorem ids_unique_invariant (ops : List Op) (items result : List Item)
    (hu : (ids items).Nodup) (hf : freshRun ops items = true)
    (hr : runOps ops items = some result) : (ids result).Nodup := by
  induction ops generalizing items with
  | nil =>
    simp only [runOps, Option.some.injEq] at hr
    subst hr
    exact hu
  | cons op rest ih =>
    cases op with
    | add f =>
      simp only [runOps, applyOp] at hr
      simp only [freshRun, applyOp] at hf
      rw [Bool.and_eq_true] at hf
      have hok := hf.1
      have hrest := hf.2
      have hfresh : f ∉ items.map Item.id := by
        simpa using hok
      apply ih (addItem f items) ?_ hrest hr
      simp only [addItem, ids, List.map_append, List.map_cons, List.map_nil]
      rw [List.nodup_append]
      refine ⟨hu, List.nodup_singleton f, ?_⟩
      intro a ha hb
      rw [List.mem_singleton] at hb
      subst hb
      exact hfresh ha
    | deleteById i =>
      simp only [runOps, applyOp] at hr
      simp only [freshRun, applyOp, Bool.true_and] at hf
      cases hdel : on_delete i items with
      | none => rw [hdel] at hr; simp at hr
      | some items2 =>
        rw [hdel] at hr hf
        exact ih items2
          (ids_nodup_sublist (on_delete_sublist i items items2 hdel) hu) hf hr
    | deleteFirst =>
      simp only [runOps, applyOp] at hr
      simp only [freshRun, applyOp, Bool.true_and] at hf
      exact ih (deleteFirst items)
        (ids_nodup_sublist (deleteFirst_sublist items) hu) hf hr
    | mutateSecondToLast =>
      simp only [runOps, applyOp] at hr
      simp only [freshRun, applyOp, Bool.true_and] at hf
      exact ih (mutateSecondToLast items)
        (by rw [ids_mutateSecondToLast]; exact hu) hf hr

/-- Witness for C1 at a concrete run. -/
theorem ids_unique_invariant_witness : (ids [⟨3, "Value"⟩]).Nodup :=
  ids_unique_invariant [Op.add 3, Op.deleteById 1, Op.deleteFirst]
    [⟨1, "great"⟩, ⟨2, "amasing"⟩] [⟨3, "Value"⟩]
    (by decide) (by decide) (by decide)
